import Mathlib

/-!
Shallow embedding of the little-man-computer assembler and interpreter
(`little-man-computer.cpp`): the line tokenizer `split`, the mnemonic
recognizer `is_mnemonic`, the two-pass assembler `parse`, and the
fetch-decode-execute interpreter (`step` / `run`), together with theorems
about the properties the specification claims for them.

Machine integers of the source are modelled as `Int`; the 16-bit `short`
memory cells are modelled through the explicit conversion `wrapShort`;
C truncating division and remainder are `Int.tdiv` / `Int.tmod`.
-/

set_option maxRecDepth 100000

namespace LMC

/-- The comment-introducing characters (`is_comment` in the source). -/
def isCommentChar (c : Char) : Bool :=
  c == '#' || c == '/' || c == ';'

/-- The C-locale `isspace` character set used by the tokenizer. -/
def isSpaceChar (c : Char) : Bool :=
  c == ' ' || c == '\t' || c == '\n' || c == '\x0b' || c == '\x0c' || c == '\r'

/-- Decimal digit test, `c >= '0' && c <= '9'` in the source. -/
def isDigitChar (c : Char) : Bool :=
  decide ('0' ≤ c) && decide (c ≤ '9')

/-- The value `c - '0'` used when the source accumulates a decimal number. -/
def digitVal (c : Char) : Int :=
  Int.ofNat c.toNat - Int.ofNat '0'.toNat

/-- Characters that continue a word in `split`: neither whitespace nor a
comment character (`*s != '\0' && !isspace(*s) && !is_comment(*s)`). -/
def notWordEnd (c : Char) : Bool :=
  !(isSpaceChar c) && !(isCommentChar c)

/-- Negation of the whitespace class. -/
def notWs (c : Char) : Bool := !(isSpaceChar c)

/-- Negation of the comment-character class. -/
def notComment (c : Char) : Bool := !(isCommentChar c)

/-- The loop body of the source's `split`, with an explicit recursion bound
(the line length suffices, as every iteration consumes at least one
character): skip whitespace; stop at end of line or at a comment character;
otherwise scan a word (which ends at whitespace, a comment character, or
end of line) and continue after it. -/
def splitGo : Nat → List Char → List (List Char)
  | 0, _ => []
  | _ + 1, [] => []
  | n + 1, c :: cs =>
    if isSpaceChar c then splitGo n cs
    else if isCommentChar c then []
    else (c :: cs.takeWhile notWordEnd) :: splitGo n (cs.dropWhile notWordEnd)

/-- The source's `split` applied to one whole line. -/
def split (l : List Char) : List (List Char) :=
  splitGo l.length l

/-- Plain whitespace-splitting of a line into words (no comment handling);
used only by the specification-side tokenizer `specLineTokens`. -/
def wsSplit (l : List Char) : List (List Char) :=
  match l with
  | [] => []
  | c :: cs =>
    if isSpaceChar c then wsSplit cs
    else (c :: cs.takeWhile notWs) :: wsSplit (cs.dropWhile notWs)
termination_by l.length
decreasing_by
  · simp only [List.length_cons]
    omega
  · simp only [List.length_cons]
    exact Nat.lt_succ_of_le (List.dropWhile_sublist notWs).length_le

/-- Tokenizer contract stated from the specification's words (§4.1): the
whitespace-delimited words of the part of the line that precedes the first
comment-introducing character. -/
def specLineTokens (l : List Char) : List (List Char) :=
  wsSplit (l.takeWhile notComment)

/-- ASCII uppercasing of one character (`c >= 'a' && c <= 'z'` branch of
`is_mnemonic`). -/
def upperChar (c : Char) : Char :=
  if 'a' ≤ c ∧ c ≤ 'z' then Char.ofNat (c.toNat - 32) else c

/-- The source's `is_mnemonic`: uppercase the word and compare it with the
eleven mnemonics, returning the opcode number, or `-1` for none
(`MNEMONIC_NONE`). -/
def is_mnemonic (w : List Char) : Int :=
  let u := w.map upperChar
  if u = "HLT".toList then 0
  else if u = "ADD".toList then 1
  else if u = "SUB".toList then 2
  else if u = "STA".toList then 3
  else if u = "LDA".toList then 4
  else if u = "BRA".toList then 5
  else if u = "BRZ".toList then 6
  else if u = "BRP".toList then 7
  else if u = "INP".toList then 8
  else if u = "OUT".toList then 9
  else if u = "DAT".toList then 10
  else -1

/-- `std::map` assignment `m[k] = v`: replace the value of an existing key,
otherwise add the binding. -/
def mapSet (k : List Char) (v : Nat) : List (List Char × Nat) → List (List Char × Nat)
  | [] => [(k, v)]
  | (k0, v0) :: t => if k0 = k then (k, v) :: t else (k0, v0) :: mapSet k v t

/-- `std::map` lookup (`find`). -/
def mapFind (k : List Char) : List (List Char × Nat) → Option Nat
  | [] => none
  | (k0, v0) :: t => if k0 = k then some v0 else mapFind k t

/-- Conversion of an `int` value to the 16-bit `short` type of the memory
cells `g_program`. -/
def wrapShort (v : Int) : Int :=
  (v + 32768) % 65536 - 32768

/-- The digit-accumulation part of `atoi`: take leading decimal digits,
stopping at the first non-digit. -/
def atoiDigits (n : Int) : List Char → Int
  | [] => n
  | c :: cs => if isDigitChar c then atoiDigits (n * 10 + digitVal c) cs else n

/-- Model of C `atoi` as used for the `DAT` parameter: skip leading
whitespace, accept an optional sign, then accumulate decimal digits. -/
def atoiInt (l : List Char) : Int :=
  match l.dropWhile isSpaceChar with
  | '-' :: rest => - atoiDigits 0 rest
  | '+' :: rest => atoiDigits 0 rest
  | t => atoiDigits 0 t

/-- The pass-2 numeric scan of a pending-reference token: accumulate decimal
digits; on the first non-digit character the result becomes `-1` and the
scan stops. -/
def refNumber (n : Int) : List Char → Int
  | [] => n
  | c :: cs => if isDigitChar c then refNumber (n * 10 + digitVal c) cs else -1

/-- One diagnostic per distinct `std::cerr` error message of `parse`.
For `needsParam` and `noParamAllowed` the argument is the opcode whose
message was printed. -/
inductive ErrKind
  | tooManyWords
  | wordAlone
  | labelNeedsMnemonic
  | tooManyParams
  | tooLong
  | noParamAllowed (m : Int)
  | needsParam (m : Int)
  | datRange
  | labelTooLarge
  | labelNotFound
  | offsetTooLarge
  deriving DecidableEq

/-- The assembler state: `g_program` (100 `short` cells), `g_pc`, the error
counter `errcount`, the label table `label_pc`, the pending-reference map
`label_ref` (its keys arise in increasing order, so a list in insertion
order carries the `std::map` iteration order), and the list of diagnostics
that were printed. -/
structure AsmState where
  prog : List Int
  pc : Nat
  errcount : Nat
  labelPc : List (List Char × Nat)
  labelRef : List (Nat × List Char)
  errs : List ErrKind
  deriving DecidableEq

/-- Initial assembler state: a zeroed 100-cell image. -/
def initAsm : AsmState :=
  ⟨List.replicate 100 0, 0, 0, [], [], []⟩

/-- Result of the structural analysis of one line, mirroring the control
flow of `parse` before the capacity check: an empty line; a structural
error; a structural error on a line whose label was already recorded
(the four-or-more-words case, where `label_pc` is assigned before the
error is found); or an instruction with an optional label and a parameter
(`[]` encodes the absent parameter, as tokens are never empty). -/
inductive LineShape
  | empty
  | bad (e : ErrKind)
  | badLabeled (lab : List Char) (e : ErrKind)
  | act (lab : Option (List Char)) (m : Int) (param : List Char)
  deriving DecidableEq

/-- Structural analysis of one tokenized line, following `parse`:
a first-token mnemonic admits at most one further word; otherwise the line
needs a label followed by a mnemonic and at most one parameter. -/
def analyzeLine (line : List Char) : LineShape :=
  match split line with
  | [] => .empty
  | [w0] =>
    if is_mnemonic w0 ≠ -1 then .act none (is_mnemonic w0) []
    else .bad .wordAlone
  | [w0, w1] =>
    if is_mnemonic w0 ≠ -1 then .act none (is_mnemonic w0) w1
    else if is_mnemonic w1 = -1 then .bad .labelNeedsMnemonic
    else .act (some w0) (is_mnemonic w1) []
  | [w0, w1, w2] =>
    if is_mnemonic w0 ≠ -1 then .bad .tooManyWords
    else if is_mnemonic w1 = -1 then .bad .labelNeedsMnemonic
    else .act (some w0) (is_mnemonic w1) w2
  | w0 :: w1 :: _ :: _ :: _ =>
    if is_mnemonic w0 ≠ -1 then .bad .tooManyWords
    else if is_mnemonic w1 = -1 then .bad .labelNeedsMnemonic
    else .badLabeled w0 .tooManyParams

/-- Report one diagnostic and increment the error counter. -/
def reportErr (s : AsmState) (e : ErrKind) : AsmState :=
  { s with errcount := s.errcount + 1, errs := s.errs ++ [e] }

/-- Store a value at `g_pc` (converted to `short`) and advance `g_pc`. -/
def storeCell (s : AsmState) (v : Int) : AsmState :=
  { s with prog := s.prog.set s.pc (wrapShort v), pc := s.pc + 1 }

/-- The capacity check followed by the per-opcode `switch` of `parse`.
Opcodes 1–7 require a parameter and record a pending reference with base
value `opcode * 100`; HLT/INP/OUT forbid a parameter; DAT stores its
(optional) literal.  The capacity diagnostic and the DAT range diagnostic
are printed without incrementing `errcount`, exactly as in the source. -/
def emitInstr (s : AsmState) (m : Int) (param : List Char) : AsmState :=
  if 100 ≤ s.pc then { s with errs := s.errs ++ [ErrKind.tooLong] }
  else if m = 0 then
    if param ≠ [] then reportErr s (.noParamAllowed 0) else storeCell s 0
  else if 1 ≤ m ∧ m ≤ 7 then
    if param = [] then reportErr s (.needsParam m)
    else { s with prog := s.prog.set s.pc (wrapShort (100 * m)),
                  labelRef := s.labelRef ++ [(s.pc, param)],
                  pc := s.pc + 1 }
  else if m = 8 then
    if param ≠ [] then reportErr s (.noParamAllowed 8) else storeCell s 800
  else if m = 9 then
    if param ≠ [] then reportErr s (.noParamAllowed 9) else storeCell s 900
  else if m = 10 then
    if param = [] then storeCell s 0
    else if 999 < atoiInt param then { s with errs := s.errs ++ [ErrKind.datRange] }
    else storeCell s (atoiInt param)
  else s

/-- Pass-1 processing of one source line. -/
def processLine (s : AsmState) (line : List Char) : AsmState :=
  match analyzeLine line with
  | .empty => s
  | .bad e => reportErr s e
  | .badLabeled lab e => reportErr { s with labelPc := mapSet lab s.pc s.labelPc } e
  | .act lab m param =>
    match lab with
    | none => emitInstr s m param
    | some l => emitInstr { s with labelPc := mapSet l s.pc s.labelPc } m param

/-- Pass-2 resolution of one pending reference, following the second loop of
`parse`: an all-digit token is a literal (greater than 999 is an error and
the reference is skipped); otherwise the token is looked up in the label
table (a missing label is an error and the reference is skipped; an address
above 99 is an error but is still added into the cell). -/
def resolveRef (s : AsmState) (r : Nat × List Char) : AsmState :=
  if refNumber 0 r.2 ≠ -1 then
    if 999 < refNumber 0 r.2 then reportErr s .labelTooLarge
    else { s with prog := s.prog.set r.1 (wrapShort (s.prog.getD r.1 0 + refNumber 0 r.2)) }
  else
    match mapFind r.2 s.labelPc with
    | none => reportErr s .labelNotFound
    | some a =>
      if 99 < a then
        { reportErr s .offsetTooLarge with
            prog := s.prog.set r.1 (wrapShort (s.prog.getD r.1 0 + (a : Int))) }
      else { s with prog := s.prog.set r.1 (wrapShort (s.prog.getD r.1 0 + (a : Int))) }

/-- The whole of `parse` on an already-read list of source lines: pass 1
over every line, pass 2 over the pending references, and the final verdict
`errcount == 0`. -/
def parse (lines : List (List Char)) : AsmState × Bool :=
  let s1 := lines.foldl processLine initAsm
  let s2 := s1.labelRef.foldl resolveRef s1
  (s2, decide (s2.errcount = 0))

/-- The interpreter state: the memory image, the runtime `g_pc`, the
accumulator, the overflow flag, and the input and output streams. -/
structure ExecState where
  prog : List Int
  pc : Int
  acc : Int
  overflow : Bool
  inputs : List Int
  outputs : List Int
  deriving DecidableEq

/-- Initial interpreter state for a memory image and an input stream
(`execute` resets `g_pc` to 0; `acc` starts at 0, `overflow` at false). -/
def initExec (prog : List Int) (inputs : List Int) : ExecState :=
  ⟨prog, 0, 0, false, inputs, []⟩

/-- A checked access to `g_program`: the array has exactly 100 cells, so any
index outside `[0, 99]` is an out-of-bounds access (undefined behavior in
the source), reported as `none`. -/
def memRead (prog : List Int) (i : Int) : Option Int :=
  if 0 ≤ i ∧ i < 100 then some (prog.getD i.toNat 0) else none

/-- Result of one interpreter cycle: normal continuation, a halt via HLT, an
out-of-bounds memory access at the given index, or an input instruction with
no input left. -/
inductive StepResult
  | ok (s : ExecState)
  | halted (s : ExecState)
  | fault (i : Int)
  | blockedInput
  deriving DecidableEq

/-- The dispatch `switch` of `execute`, applied after the program counter
has been advanced: `instr` is `cell / 100` and `loc` is `cell % 100` in C
truncating arithmetic.  Opcode values with no `case` fall through the
`switch` and continue. -/
def dispatch (s : ExecState) (instr loc : Int) : StepResult :=
  if instr = 0 then .halted s
  else if instr = 1 then
    match memRead s.prog loc with
    | none => .fault loc
    | some m => .ok { s with overflow := decide (999 < s.acc + m),
                             acc := Int.tmod (s.acc + m) 1000 }
  else if instr = 2 then
    match memRead s.prog loc with
    | none => .fault loc
    | some m => .ok { s with overflow := decide (s.acc < m),
                             acc := Int.tmod (s.acc - m) 1000 }
  else if instr = 3 then
    if 0 ≤ loc ∧ loc < 100 then .ok { s with prog := s.prog.set loc.toNat (wrapShort s.acc) }
    else .fault loc
  else if instr = 4 then
    match memRead s.prog loc with
    | none => .fault loc
    | some m => .ok { s with acc := m }
  else if instr = 5 then .ok { s with pc := loc }
  else if instr = 6 then
    if s.acc = 0 then .ok { s with pc := loc } else .ok s
  else if instr = 7 then
    if s.overflow = false then .ok { s with pc := loc } else .ok s
  else if instr = 8 then
    match s.inputs with
    | [] => .blockedInput
    | v :: rest => .ok { s with acc := Int.tmod v 1000, inputs := rest }
  else if instr = 9 then .ok { s with outputs := s.outputs ++ [s.acc] }
  else .ok s

/-- One cycle of `execute`: fetch the cell at the program counter, decode
`instruction = cell / 100` and `loc = cell % 100`, advance the program
counter, then dispatch. -/
def step (s : ExecState) : StepResult :=
  match memRead s.prog s.pc with
  | none => .fault s.pc
  | some cell =>
    dispatch { s with pc := s.pc + 1 } (Int.tdiv cell 100) (Int.tmod cell 100)

/-- Outcome of iterating `step` a bounded number of times.  The source loop
is unbounded; `outOfFuel` only means the bound was reached. -/
inductive RunOutcome
  | halted (s : ExecState)
  | outOfFuel (s : ExecState)
  | fault (i : Int) (s : ExecState)
  | blocked (s : ExecState)
  deriving DecidableEq

/-- Iterate the interpreter for at most the given number of cycles. -/
def run : Nat → ExecState → RunOutcome
  | 0, s => .outOfFuel s
  | n + 1, s =>
    match step s with
    | .ok t => run n t
    | .halted t => .halted t
    | .fault i => .fault i s
    | .blockedInput => .blocked s

/-- The interpreter state carried by an outcome. -/
def outcomeState : RunOutcome → ExecState
  | .halted s => s
  | .outOfFuel s => s
  | .fault _ s => s
  | .blocked s => s

/-- Whether an outcome is a halt through the HLT instruction. -/
def isHalted : RunOutcome → Bool
  | .halted _ => true
  | _ => false

/-- The index of the out-of-bounds access of a faulting outcome. -/
def faultIndex : RunOutcome → Option Int
  | .fault i _ => some i
  | _ => none

/-- The round-trip source program of §8 of the specification. -/
def srcRoundTrip : List (List Char) :=
  ["INP".toList, "STA 99".toList, "LDA 99".toList, "OUT".toList, "HLT".toList]

/-- A source consisting of `n` copies of the line `OUT`. -/
def outLines (n : Nat) : List (List Char) :=
  List.replicate n ("OUT".toList)

/-- Memory image whose first cell is `SUB 1` (201) and whose cell 1 holds 1. -/
def progSubCx : List Int :=
  ((List.replicate 100 (0 : Int)).set 0 201).set 1 1

/-- Memory image holding `LDA 4; ADD 5; HLT` with cell 4 = 999, cell 5 = 2. -/
def progLdaAdd : List Int :=
  ((((List.replicate 100 (0 : Int)).set 0 404).set 1 105).set 4 999).set 5 2

/-- Memory image whose first cell (1099) decodes to the undefined opcode 10. -/
def progOpTen : List Int :=
  (List.replicate 100 (0 : Int)).set 0 1099

/-- Memory image holding `ADD 1` with cell 1 = 5. -/
def progAddEx : List Int :=
  ((List.replicate 100 (0 : Int)).set 0 101).set 1 5

/-- An assembler state whose program counter already reached the capacity. -/
def fullAsm : AsmState :=
  ⟨List.replicate 100 0, 100, 0, [], [], []⟩

/-!  Helper lemmas shared by the claim theorems. -/

theorem splitGo_fuel :
    ∀ (n m : Nat) (l : List Char), l.length ≤ n → l.length ≤ m →
      splitGo n l = splitGo m l := by
  intro n
  induction n with
  | zero =>
    intro m l hn _
    have h0 : l = [] := List.length_eq_zero.mp (Nat.le_zero.mp hn)
    subst h0
    cases m <;> rfl
  | succ n ih =>
    intro m l hn hm
    cases l with
    | nil => cases m <;> rfl
    | cons c cs =>
      simp only [List.length_cons] at hn hm
      cases m with
      | zero => omega
      | succ m =>
        by_cases hs : isSpaceChar c = true
        · simp only [splitGo, if_pos hs]
          exact ih m cs (by omega) (by omega)
        · by_cases hc : isCommentChar c = true
          · simp only [splitGo, if_neg hs, if_pos hc]
          · simp only [splitGo, if_neg hs, if_neg hc]
            rw [ih m (cs.dropWhile notWordEnd)
              (le_trans (List.dropWhile_sublist notWordEnd).length_le (by omega))
              (le_trans (List.dropWhile_sublist notWordEnd).length_le (by omega))]

theorem split_nil : split [] = [] := rfl

theorem split_cons (c : Char) (cs : List Char) :
    split (c :: cs) =
      if isSpaceChar c then split cs
      else if isCommentChar c then []
      else (c :: cs.takeWhile notWordEnd) :: split (cs.dropWhile notWordEnd) := by
  show splitGo (cs.length + 1) (c :: cs) = _
  by_cases hs : isSpaceChar c = true
  · simp only [splitGo, if_pos hs]
    rfl
  · by_cases hc : isCommentChar c = true
    · simp only [splitGo, if_neg hs, if_pos hc]
    · simp only [splitGo, if_neg hs, if_neg hc]
      rw [splitGo_fuel cs.length (cs.dropWhile notWordEnd).length (cs.dropWhile notWordEnd)
        (List.dropWhile_sublist notWordEnd).length_le le_rfl]
      rfl

theorem wsSplit_nil : wsSplit [] = [] := by
  rw [wsSplit]

theorem wsSplit_cons (c : Char) (cs : List Char) :
    wsSplit (c :: cs) =
      if isSpaceChar c then wsSplit cs
      else (c :: cs.takeWhile notWs) :: wsSplit (cs.dropWhile notWs) := by
  rw [wsSplit]

theorem space_not_comment {c : Char} (h : isSpaceChar c = true) :
    isCommentChar c = false := by
  simp only [isSpaceChar, Bool.or_eq_true, beq_iff_eq] at h
  rcases h with ((((h|h)|h)|h)|h)|h <;> subst h <;> rfl

theorem takeWhile_word (cs : List Char) :
    cs.takeWhile notWordEnd = (cs.takeWhile notComment).takeWhile notWs := by
  induction cs with
  | nil => rfl
  | cons c t ih =>
    by_cases hs : isSpaceChar c = true
    · have hc : isCommentChar c = false := space_not_comment hs
      simp [List.takeWhile_cons, notWordEnd, notWs, notComment, hs, hc]
    · by_cases hc : isCommentChar c = true
      · simp [List.takeWhile_cons, notWordEnd, notWs, notComment, hs, hc]
      · simp only [Bool.not_eq_true] at hs hc
        simp [List.takeWhile_cons, notWordEnd, notWs, notComment, hs, hc, ih]

theorem dropWhile_word (cs : List Char) :
    (cs.dropWhile notWordEnd).takeWhile notComment =
      (cs.takeWhile notComment).dropWhile notWs := by
  induction cs with
  | nil => rfl
  | cons c t ih =>
    by_cases hs : isSpaceChar c = true
    · have hc : isCommentChar c = false := space_not_comment hs
      simp [List.dropWhile_cons, List.takeWhile_cons, notWordEnd, notWs, notComment, hs, hc]
    · by_cases hc : isCommentChar c = true
      · simp [List.dropWhile_cons, List.takeWhile_cons, notWordEnd, notWs, notComment, hs, hc]
      · simp only [Bool.not_eq_true] at hs hc
        simp [List.dropWhile_cons, List.takeWhile_cons, notWordEnd, notWs, notComment, hs, hc, ih]

theorem split_spec_aux :
    ∀ (n : Nat) (l : List Char), l.length ≤ n → split l = specLineTokens l := by
  intro n
  induction n with
  | zero =>
    intro l hl
    have h0 : l = [] := List.length_eq_zero.mp (Nat.le_zero.mp hl)
    subst h0
    rw [split_nil, specLineTokens]
    simp [wsSplit_nil]
  | succ n ih =>
    intro l hl
    match l with
    | [] =>
      rw [split_nil, specLineTokens]
      simp [wsSplit_nil]
    | c :: cs =>
      have hcs : cs.length ≤ n := by
        simp only [List.length_cons] at hl
        omega
      rw [split_cons]
      by_cases hs : isSpaceChar c = true
      · have hc : isCommentChar c = false := space_not_comment hs
        rw [if_pos hs, ih cs hcs]
        unfold specLineTokens
        rw [List.takeWhile_cons]
        simp [notComment, hc, wsSplit_cons, hs]
      · by_cases hcm : isCommentChar c = true
        · rw [if_neg hs, if_pos hcm]
          unfold specLineTokens
          rw [List.takeWhile_cons]
          simp [notComment, hcm, wsSplit_nil]
        · rw [if_neg hs, if_neg hcm]
          have hdrop : (cs.dropWhile notWordEnd).length ≤ n :=
            le_trans (List.dropWhile_sublist notWordEnd).length_le hcs
          rw [ih _ hdrop]
          unfold specLineTokens
          rw [List.takeWhile_cons]
          simp only [notComment, hcm, Bool.not_false, if_pos]
          rw [wsSplit_cons, if_neg (by simp [notWs, hs])]
          rw [takeWhile_word, dropWhile_word]

theorem tmod_thousand_of_nonneg {a : Int} (h : 0 ≤ a) :
    Int.tmod a 1000 = a % 1000 :=
  Int.tmod_eq_emod h (by norm_num)

theorem tmod_thousand_small {a : Int} (h1 : -1000 < a) (h2 : a < 1000) :
    Int.tmod a 1000 = a := by
  match a with
  | Int.ofNat n =>
    have hn : n < 1000 := by
      simp only [Int.ofNat_eq_natCast] at h2
      exact_mod_cast h2
    have e : Int.tmod (Int.ofNat n) 1000 = Int.ofNat (n % 1000) := rfl
    rw [e, Nat.mod_eq_of_lt hn]
  | Int.negSucc n =>
    have hn : n + 1 < 1000 := by
      simp only [Int.negSucc_eq] at h1
      omega
    have e : Int.tmod (Int.negSucc n) 1000 = - Int.ofNat (n.succ % 1000) := rfl
    rw [e, Nat.mod_eq_of_lt hn]
    simp only [Int.negSucc_eq, Int.ofNat_eq_natCast]
    push_cast
    ring

theorem wrapShort_eq_self {v : Int} (h1 : -32768 ≤ v) (h2 : v ≤ 32767) :
    wrapShort v = v := by
  unfold wrapShort
  omega

theorem digitVal_bounds {c : Char} (h : isDigitChar c = true) :
    0 ≤ digitVal c ∧ digitVal c ≤ 9 := by
  unfold isDigitChar at h
  rw [Bool.and_eq_true, decide_eq_true_eq, decide_eq_true_eq] at h
  have h1 : '0'.toNat ≤ c.toNat := h.1
  have h2 : c.toNat ≤ '9'.toNat := h.2
  unfold digitVal
  simp only [Int.ofNat_eq_natCast]
  have e0 : '0'.toNat = 48 := rfl
  have e9 : '9'.toNat = 57 := rfl
  omega

theorem refNumber_nonneg :
    ∀ (tok : List Char) (n : Int), 0 ≤ n → tok.all isDigitChar = true →
      0 ≤ refNumber n tok := by
  intro tok
  induction tok with
  | nil =>
    intro n hn _
    simpa [refNumber] using hn
  | cons c t ih =>
    intro n hn hall
    rw [List.all_cons, Bool.and_eq_true] at hall
    rw [refNumber, if_pos hall.1]
    have hd := digitVal_bounds hall.1
    exact ih _ (by nlinarith [hd.1]) hall.2

theorem refNumber_neg :
    ∀ (tok : List Char) (n : Int), tok.all isDigitChar = false →
      refNumber n tok = -1 := by
  intro tok
  induction tok with
  | nil =>
    intro n h
    simp [List.all_nil] at h
  | cons c t ih =>
    intro n h
    by_cases hc : isDigitChar c = true
    · rw [refNumber, if_pos hc]
      apply ih
      rw [List.all_cons, hc] at h
      simpa using h
    · rw [refNumber, if_neg hc]

/-!  Claim theorems. -/

/-- C1: the claimed cell-range invariant fails on the code.  The one-line
program `ADD 999` assembles with no reported diagnostics and a zero error
count, yet after pass-2 resolution memory cell 0 holds 1099, outside the
claimed range [0, 999]. -/
theorem claim_c1_range_bug :
    (parse [("ADD 999".toList)]).2 = true ∧
    (parse [("ADD 999".toList)]).1.errcount = 0 ∧
    (parse [("ADD 999".toList)]).1.errs = [] ∧
    (parse [("ADD 999".toList)]).1.prog.getD 0 0 = 1099 ∧
    999 < (parse [("ADD 999".toList)]).1.prog.getD 0 0 := by
  decide

/-- C2: not every detected error increments the error counter.  The one-line
program `DAT 1000` has its range diagnostic reported, yet the error counter
stays 0 and `parse` succeeds, so the interpreter would run. -/
theorem claim_c2_counter_bug :
    (parse [("DAT 1000".toList)]).1.errs = [ErrKind.datRange] ∧
    (parse [("DAT 1000".toList)]).1.errcount = 0 ∧
    (parse [("DAT 1000".toList)]).2 = true := by
  decide

/-- C3 counterexample: executing SUB with accumulator 0 and operand cell
value 1 (both in [0, 999]) leaves the accumulator at −1, which is not in
[0, 999] and differs from (0 − 1) mod 1000 = 999. -/
theorem claim_c3_counterexample :
    (outcomeState (run 1 (initExec progSubCx []))).acc = -1 ∧
    (outcomeState (run 1 (initExec progSubCx []))).overflow = true ∧
    ¬(0 ≤ (outcomeState (run 1 (initExec progSubCx []))).acc) ∧
    ((0 : Int) - 1) % 1000 = 999 := by
  decide

/-- C3 (amended): for every SUB execution with accumulator `a` and operand
cell value `m` both in [0, 999], the overflow flag becomes `a < m` and the
accumulator becomes the C truncated remainder `(a − m) tmod 1000 = a − m`,
a value in [−999, 999]; it equals (a − m) mod 1000 exactly when `m ≤ a`. -/
theorem claim_c3_sub_amended :
    ∀ (prog : List Int) (pc acc : Int) (ov : Bool) (ins outs : List Int) (cell m : Int),
      memRead prog pc = some cell → Int.tdiv cell 100 = 2 →
      memRead prog (Int.tmod cell 100) = some m →
      0 ≤ acc → acc ≤ 999 → 0 ≤ m → m ≤ 999 →
      step ⟨prog, pc, acc, ov, ins, outs⟩ =
        .ok ⟨prog, pc + 1, acc - m, decide (acc < m), ins, outs⟩ ∧
      (-999 ≤ acc - m ∧ acc - m ≤ 999) ∧
      (m ≤ acc → acc - m = (acc - m) % 1000) := by
  intro prog pc acc ov ins outs cell m hf hi hm ha0 ha9 hm0 hm9
  refine ⟨?_, ⟨by omega, by omega⟩, ?_⟩
  · unfold step
    simp only [hf, hi]
    unfold dispatch
    norm_num
    simp only [hm]
    rw [tmod_thousand_small (by omega) (by omega)]
  · intro hle
    rw [Int.emod_eq_of_lt (by omega) (by omega)]

/-- C3 witness: the amended SUB theorem applied to the concrete image
`progSubCx` (SUB 1 with cell 1 = 1, accumulator 0). -/
theorem claim_c3_witness :
    step ⟨progSubCx, 0, 0, false, [], []⟩ =
      .ok ⟨progSubCx, 0 + 1, 0 - 1, decide ((0 : Int) < 1), [], []⟩ :=
  (claim_c3_sub_amended progSubCx 0 0 false [] [] 201 1 (by decide) (by decide)
    (by decide) (by decide) (by decide) (by decide) (by decide)).1

/-- C4: pass-2 resolution of a pending reference.  An all-digit token above
999 is an error and the reference is skipped; an unknown label is an error
and the reference is skipped; a label address above 99 is an error but is
still added into the cell; in the non-skipped cases the resolved value is
added onto the cell's existing opcode×100 base value. -/
theorem claim_c4_pass2 :
    (∀ (s : AsmState) (addr : Nat) (tok : List Char),
       tok.all isDigitChar = true → 999 < refNumber 0 tok →
       resolveRef s (addr, tok) = reportErr s .labelTooLarge) ∧
    (∀ (s : AsmState) (addr : Nat) (tok : List Char),
       tok.all isDigitChar = false → mapFind tok s.labelPc = none →
       resolveRef s (addr, tok) = reportErr s .labelNotFound) ∧
    (∀ (s : AsmState) (addr : Nat) (tok : List Char) (a : Nat),
       tok.all isDigitChar = false → mapFind tok s.labelPc = some a → 99 < a →
       resolveRef s (addr, tok) =
         { reportErr s .offsetTooLarge with
             prog := s.prog.set addr (wrapShort (s.prog.getD addr 0 + (a : Int))) }) ∧
    (∀ (s : AsmState) (addr : Nat) (tok : List Char) (op : Int),
       tok.all isDigitChar = true → refNumber 0 tok ≤ 999 →
       s.prog.getD addr 0 = 100 * op → 0 ≤ op → op ≤ 9 →
       resolveRef s (addr, tok) =
         { s with prog := s.prog.set addr (100 * op + refNumber 0 tok) }) ∧
    (∀ (s : AsmState) (addr : Nat) (tok : List Char) (a : Nat) (op : Int),
       tok.all isDigitChar = false → mapFind tok s.labelPc = some a → a ≤ 99 →
       s.prog.getD addr 0 = 100 * op → 0 ≤ op → op ≤ 9 →
       resolveRef s (addr, tok) =
         { s with prog := s.prog.set addr (100 * op + (a : Int)) }) := by
  refine ⟨?_, ?_, ?_, ?_, ?_⟩
  · intro s addr tok hall hbig
    have hnn : 0 ≤ refNumber 0 tok := refNumber_nonneg tok 0 le_rfl hall
    simp only [resolveRef]
    rw [if_pos (by omega : refNumber 0 tok ≠ -1), if_pos hbig]
  · intro s addr tok hnotall hfind
    have hne : refNumber 0 tok = -1 := refNumber_neg tok 0 hnotall
    simp only [resolveRef]
    rw [if_neg (by omega)]
    simp only [hfind]
  · intro s addr tok a hnotall hfind hbig
    have hne : refNumber 0 tok = -1 := refNumber_neg tok 0 hnotall
    simp only [resolveRef]
    rw [if_neg (by omega)]
    simp only [hfind]
    rw [if_pos hbig]
  · intro s addr tok op hall hle hbase hop0 hop9
    have hnn : 0 ≤ refNumber 0 tok := refNumber_nonneg tok 0 le_rfl hall
    simp only [resolveRef]
    rw [if_pos (by omega : refNumber 0 tok ≠ -1), if_neg (by omega), hbase,
      wrapShort_eq_self (by omega) (by omega)]
  · intro s addr tok a op hnotall hfind hle hbase hop0 hop9
    have hne : refNumber 0 tok = -1 := refNumber_neg tok 0 hnotall
    simp only [resolveRef]
    rw [if_neg (by omega)]
    simp only [hfind]
    rw [if_neg (by omega), hbase,
      wrapShort_eq_self (by omega) (by omega)]

/-- C4 witness: resolution applied to concrete references: the literal 9999
is rejected and skipped; the literal 99 is added onto a base value of 0. -/
theorem claim_c4_witness :
    resolveRef initAsm (0, "9999".toList) = reportErr initAsm .labelTooLarge ∧
    resolveRef initAsm (0, "99".toList) =
      { initAsm with prog := initAsm.prog.set 0 (100 * 0 + refNumber 0 ("99".toList)) } := by
  constructor
  · exact claim_c4_pass2.1 initAsm 0 ("9999".toList) (by decide) (by decide)
  · exact claim_c4_pass2.2.2.2.1 initAsm 0 ("99".toList) 0 (by decide) (by decide)
      (by decide) (by decide) (by decide)

/-- C5: once the assembly-time program counter has reached 100, any line
that parses to an emitting instruction triggers the capacity diagnostic and
is skipped without advancing the counter or touching the image; a source of
100 `OUT` lines assembles successfully, and the 101st line of a 101-line
source is reported and not emitted. -/
theorem claim_c5_capacity :
    (∀ (s : AsmState) (line : List Char) (lab : Option (List Char)) (m : Int)
       (param : List Char),
       100 ≤ s.pc → analyzeLine line = .act lab m param →
       (processLine s line).pc = s.pc ∧
       (processLine s line).prog = s.prog ∧
       (processLine s line).errcount = s.errcount ∧
       (processLine s line).errs = s.errs ++ [ErrKind.tooLong]) ∧
    (parse (outLines 100)).2 = true ∧
    (parse (outLines 100)).1.errcount = 0 ∧
    (parse (outLines 100)).1.errs = [] ∧
    (parse (outLines 100)).1.pc = 100 ∧
    (parse (outLines 101)).1.errs = [ErrKind.tooLong] ∧
    (parse (outLines 101)).1.pc = 100 ∧
    (parse (outLines 101)).1.prog = (parse (outLines 100)).1.prog := by
  refine ⟨?_, by decide, by decide, by decide, by decide, by decide, by decide, by decide⟩
  intro s line lab m param h100 hana
  cases lab with
  | none => simp [processLine, hana, emitInstr, h100]
  | some lb => simp [processLine, hana, emitInstr, h100]

/-- C5 witness: the capacity theorem applied to a full assembler state and
the line `OUT`. -/
theorem claim_c5_witness :
    (processLine fullAsm ("OUT".toList)).pc = 100 ∧
    (processLine fullAsm ("OUT".toList)).errs = fullAsm.errs ++ [ErrKind.tooLong] := by
  have h := claim_c5_capacity.1 fullAsm ("OUT".toList) none 9 [] (by decide) (by decide)
  exact ⟨h.1, h.2.2.2⟩

/-- C6: for every ADD execution with nonnegative accumulator `a` and operand
cell value `m`, the overflow flag becomes `(a + m) > 999` and the
accumulator becomes `(a + m) mod 1000`; in particular `LDA` of a cell
holding 999 followed by `ADD` of a cell holding 2 leaves overflow = true
and accumulator = 1. -/
theorem claim_c6_add :
    (∀ (prog : List Int) (pc acc : Int) (ov : Bool) (ins outs : List Int) (cell m : Int),
       memRead prog pc = some cell → Int.tdiv cell 100 = 1 →
       memRead prog (Int.tmod cell 100) = some m →
       0 ≤ acc → 0 ≤ m →
       step ⟨prog, pc, acc, ov, ins, outs⟩ =
         .ok ⟨prog, pc + 1, (acc + m) % 1000, decide (999 < acc + m), ins, outs⟩) ∧
    (outcomeState (run 2 (initExec progLdaAdd []))).overflow = true ∧
    (outcomeState (run 2 (initExec progLdaAdd []))).acc = 1 := by
  refine ⟨?_, by decide, by decide⟩
  intro prog pc acc ov ins outs cell m hf hi hm ha hm0
  unfold step
  simp only [hf, hi]
  unfold dispatch
  norm_num
  simp only [hm]
  rw [tmod_thousand_of_nonneg (by omega)]

/-- C6 witness: the ADD theorem applied to the concrete image `progAddEx`
(ADD 1 with cell 1 = 5, accumulator 0). -/
theorem claim_c6_witness :
    step ⟨progAddEx, 0, 0, false, [], []⟩ =
      .ok ⟨progAddEx, 0 + 1, ((0 : Int) + 5) % 1000, decide (999 < (0 : Int) + 5), [], []⟩ :=
  claim_c6_add.1 progAddEx 0 0 false [] [] 101 5 (by decide) (by decide) (by decide)
    (by decide) (by decide)

/-- C7: each cycle fetches the cell at the program counter, decodes
`opcode = cell / 100` and `operand = cell % 100` (C truncating arithmetic),
and increments the program counter before dispatch; an opcode value outside
0–9 performs no operation and execution continues with the next cycle, and
a defined opcode (OUT shown here) acts on the state with the counter
already advanced. -/
theorem claim_c7_decode_noop :
    (∀ (prog : List Int) (pc acc : Int) (ov : Bool) (ins outs : List Int) (cell : Int),
       memRead prog pc = some cell →
       (Int.tdiv cell 100 < 0 ∨ 9 < Int.tdiv cell 100) →
       step ⟨prog, pc, acc, ov, ins, outs⟩ = .ok ⟨prog, pc + 1, acc, ov, ins, outs⟩) ∧
    (∀ (prog : List Int) (pc acc : Int) (ov : Bool) (ins outs : List Int) (cell : Int),
       memRead prog pc = some cell → Int.tdiv cell 100 = 9 →
       step ⟨prog, pc, acc, ov, ins, outs⟩ =
         .ok ⟨prog, pc + 1, acc, ov, ins, outs ++ [acc]⟩) := by
  constructor
  · intro prog pc acc ov ins outs cell hf hrange
    have h0 : ¬(Int.tdiv cell 100 = 0) := by rcases hrange with h|h <;> omega
    have h1 : ¬(Int.tdiv cell 100 = 1) := by rcases hrange with h|h <;> omega
    have h2 : ¬(Int.tdiv cell 100 = 2) := by rcases hrange with h|h <;> omega
    have h3 : ¬(Int.tdiv cell 100 = 3) := by rcases hrange with h|h <;> omega
    have h4 : ¬(Int.tdiv cell 100 = 4) := by rcases hrange with h|h <;> omega
    have h5 : ¬(Int.tdiv cell 100 = 5) := by rcases hrange with h|h <;> omega
    have h6 : ¬(Int.tdiv cell 100 = 6) := by rcases hrange with h|h <;> omega
    have h7 : ¬(Int.tdiv cell 100 = 7) := by rcases hrange with h|h <;> omega
    have h8 : ¬(Int.tdiv cell 100 = 8) := by rcases hrange with h|h <;> omega
    have h9 : ¬(Int.tdiv cell 100 = 9) := by rcases hrange with h|h <;> omega
    unfold step
    simp only [hf]
    unfold dispatch
    simp [h0, h1, h2, h3, h4, h5, h6, h7, h8, h9]
  · intro prog pc acc ov ins outs cell hf hi
    unfold step
    simp only [hf, hi]
    unfold dispatch
    norm_num

/-- C7 witness: the decode theorem applied to the concrete image whose
first cell is 1099, which decodes to the undefined opcode 10. -/
theorem claim_c7_witness :
    step ⟨progOpTen, 0, 0, false, [], []⟩ = .ok ⟨progOpTen, 0 + 1, 0, false, [], []⟩ :=
  claim_c7_decode_noop.1 progOpTen 0 0 false [] [] 1099 (by decide) (Or.inr (by decide))

/-- C8: assembling `INP` `STA 99` `LDA 99` `OUT` `HLT` succeeds with no
errors, and executing the image with the single input 7 halts after
producing exactly the output 7. -/
theorem claim_c8_round_trip :
    (parse srcRoundTrip).2 = true ∧
    (parse srcRoundTrip).1.errcount = 0 ∧
    (parse srcRoundTrip).1.errs = [] ∧
    isHalted (run 10 (initExec (parse srcRoundTrip).1.prog [7])) = true ∧
    (outcomeState (run 10 (initExec (parse srcRoundTrip).1.prog [7]))).outputs = [7] := by
  decide

/-- C9: the tokenizer returns exactly the whitespace-delimited words of the
part of the line before the first comment character (`specLineTokens`,
which cuts a token short at a comment character), and returns the empty
sequence for an all-whitespace line or a line whose first non-whitespace
character introduces a comment. -/
theorem claim_c9_tokenizer :
    (∀ l : List Char, split l = specLineTokens l) ∧
    (∀ l : List Char, l.all isSpaceChar = true → split l = []) ∧
    (∀ (l : List Char) (c : Char) (r : List Char),
       l.dropWhile isSpaceChar = c :: r → isCommentChar c = true → split l = []) := by
  refine ⟨fun l => split_spec_aux l.length l le_rfl, ?_, ?_⟩
  · intro l
    induction l with
    | nil => intro _; exact split_nil
    | cons c t ih =>
      intro h
      rw [List.all_cons, Bool.and_eq_true] at h
      rw [split_cons, if_pos h.1]
      exact ih h.2
  · intro l
    induction l with
    | nil =>
      intro c r h _
      simp [List.dropWhile_nil] at h
    | cons d t ih =>
      intro c r h hc
      rw [List.dropWhile_cons] at h
      by_cases hd : isSpaceChar d = true
      · rw [if_pos hd] at h
        rw [split_cons, if_pos hd]
        exact ih c r h hc
      · rw [if_neg hd] at h
        injection h with h1 h2
        subst h1
        rw [split_cons, if_neg hd, if_pos hc]

/-- C9 witness: the tokenizer theorem instantiated at an all-whitespace
line and at a line starting with a comment character. -/
theorem claim_c9_witness :
    split ("   ".toList) = [] ∧ split ("#x".toList) = [] := by
  constructor
  · exact claim_c9_tokenizer.2.1 ("   ".toList) (by decide)
  · exact claim_c9_tokenizer.2.2 ("#x".toList) '#' ("x".toList) (by decide) (by decide)

/-- C10: the in-bounds claim fails on the code.  A source of 100 `OUT`
lines assembles without any reported error, yet after the 100th cycle the
interpreter fetches the cell at program-counter index 100, outside the
100-cell image (an out-of-bounds read of `g_program[100]` in the source). -/
theorem claim_c10_oob :
    (parse (outLines 100)).2 = true ∧
    (parse (outLines 100)).1.errcount = 0 ∧
    (parse (outLines 100)).1.errs = [] ∧
    faultIndex (run 101 (initExec (parse (outLines 100)).1.prog [])) = some 100 := by
  decide

end LMC
